import Mathlib

/-!
# Verification of the Cryptax tax-lot accounting core

A shallow embedding, in Lean 4, of the parts of the repository that the
frozen claims are about:

* `src/src/calculate.py` — `TaxLot`, `AssetInventory` (FIFO/LIFO/HIFO lot
  store with `add_lot` / `remove_amount`) and the `TaxCalculator`
  transaction processors;
* `src/app/core/normalize.py` — `parse_pair`;
* `src/app/core/validate.py` — `validate_df` and
  `validate_transaction_sequence`.

Modelling conventions:

* Python floats are embedded as exact rationals `ℚ` (the spec mandates
  decimal arithmetic; the float tolerance `1e-8` of the source is kept
  literally as `1/100000000`).
* Timestamps are rationals measured in days, so `timedelta(days=365)`
  becomes the literal `365` and `timedelta.days` becomes `Int.floor`.
* Python strings are Lean `String`s; `parse_pair` works on `List Char`
  (a Python `str` is exactly a sequence of characters).
* `None`/`NaN`-able cells are `Option` values.
* The mutable `TaxCalculator` object is explicit state passed through the
  processing functions; `fetch_price` is an explicit oracle parameter
  `String → ℚ → Option ℚ` (the repository's price fetcher is an external
  collaborator).
-/

/-- Disposal policy; `calculate.py` keeps it as the lowercased string
`method ∈ {"fifo", "lifo", "hifo"}`. -/
inductive Method where
  | fifo
  | lifo
  | hifo
deriving DecidableEq, Repr

/-- `TaxLot.__init__` (calculate.py lines 20–29).  `unit_cost` is a stored
field computed once at construction (`cost_basis / amount if amount > 0
else 0`); later in-place mutation of `amount`/`cost_basis` (the partial
split in `remove_amount`) does *not* recompute it, so it is a field here,
not a function. -/
structure TaxLot where
  amount : ℚ
  cost_basis : ℚ
  acquisition_date : ℚ
  transaction_id : ℕ
  unit_cost : ℚ
deriving DecidableEq, Repr

/-- The `TaxLot` constructor: sets `unit_cost = cost_basis / amount` when
`amount > 0`, else `0` (calculate.py line 29). -/
def mkTaxLot (amount cost_basis : ℚ) (acquisition_date : ℚ) (transaction_id : ℕ) : TaxLot :=
  { amount := amount
    cost_basis := cost_basis
    acquisition_date := acquisition_date
    transaction_id := transaction_id
    unit_cost := if 0 < amount then cost_basis / amount else 0 }

/-- `AssetInventory` (calculate.py lines 35–43).  The `deque` (fifo) and
`list` (lifo/hifo) both embed as `List TaxLot`; the end they push/pop at is
encoded in `add_lot` / `popLot` / `pushResidual` below. -/
structure AssetInventory where
  asset : String
  method : Method
  lots : List TaxLot
  total_amount : ℚ
  total_cost_basis : ℚ
deriving DecidableEq, Repr

/-- `AssetInventory.__init__`. -/
def mkInventory (asset : String) (method : Method) : AssetInventory :=
  { asset := asset, method := method, lots := [], total_amount := 0, total_cost_basis := 0 }

/-- The comparison used by `self.lots.sort(key=lambda x: x.unit_cost,
reverse=True)`: a stable sort that puts higher `unit_cost` first. -/
def lotLE (a b : TaxLot) : Bool := decide (b.unit_cost ≤ a.unit_cost)

/-- `AssetInventory.add_lot` (calculate.py lines 45–57): append under
fifo/lifo; under hifo append then stable-sort descending by the stored
`unit_cost`; always bump both aggregates. -/
def add_lot (inv : AssetInventory) (lot : TaxLot) : AssetInventory :=
  let lots :=
    match inv.method with
    | .fifo => inv.lots ++ [lot]
    | .lifo => inv.lots ++ [lot]
    | .hifo => List.mergeSort (inv.lots ++ [lot]) lotLE
  { inv with
    lots := lots
    total_amount := inv.total_amount + lot.amount
    total_cost_basis := inv.total_cost_basis + lot.cost_basis }

/-- The floating-point tolerance `1e-8` used throughout `calculate.py`. -/
def tol : ℚ := 1 / 100000000

/-- Lot selection of one loop iteration of `remove_amount`
(calculate.py lines 81–86): fifo pops the front (`popleft`), lifo the back
(`pop()`), hifo the front of the descending-sorted list (`pop(0)`). -/
def popLot (m : Method) (l : TaxLot) (ls : List TaxLot) : TaxLot × List TaxLot :=
  match m with
  | .fifo => (l, ls)
  | .lifo => ((l :: ls).getLast (List.cons_ne_nil l ls), (l :: ls).dropLast)
  | .hifo => (l, ls)

/-- Where the residual of a partial split is put back
(calculate.py lines 108–113): fifo `appendleft`, lifo `append`,
hifo `insert(0, ...)`. -/
def pushResidual (m : Method) (residual : TaxLot) (rest : List TaxLot) : List TaxLot :=
  match m with
  | .fifo => residual :: rest
  | .lifo => rest ++ [residual]
  | .hifo => residual :: rest

/-- The `while remaining_to_remove > 1e-8 and self.lots:` loop of
`AssetInventory.remove_amount` (calculate.py lines 77–118), as a function
from the current lot list and remaining quantity to the pairs
`(lot, amount_taken)` collected so far and the final lot list.  A full lot
(`lot.amount <= remaining`) is consumed whole; otherwise the lot is split:
the taken sub-lot `TaxLot(taken, cost/amount*taken, ...)` is returned and
the residual, decremented in place, is pushed back (and the loop ends,
because the code sets `remaining_to_remove = 0`). -/
def removeLoop (m : Method) (lots : List TaxLot) (remaining : ℚ) :
    List (TaxLot × ℚ) × List TaxLot :=
  match lots with
  | [] => ([], [])
  | l :: ls =>
    if remaining ≤ tol then ([], l :: ls)
    else
      if (popLot m l ls).1.amount ≤ remaining then
        let r := removeLoop m (popLot m l ls).2 (remaining - (popLot m l ls).1.amount)
        (((popLot m l ls).1, (popLot m l ls).1.amount) :: r.1, r.2)
      else
        let lot := (popLot m l ls).1
        let taken_cost := lot.cost_basis / lot.amount * remaining
        ([(mkTaxLot remaining taken_cost lot.acquisition_date lot.transaction_id, remaining)],
          pushResidual m
            { lot with amount := lot.amount - remaining, cost_basis := lot.cost_basis - taken_cost }
            (popLot m l ls).2)
termination_by lots.length
decreasing_by cases m <;> simp [popLot]

/-- `AssetInventory.remove_amount` (calculate.py lines 61–119).
`amount <= 0` returns the empty list at once with the inventory untouched;
otherwise the loop runs and the aggregates drop by exactly the consumed
amounts/costs (the code decrements them iteration by iteration; summed
here, which is the same arithmetic). -/
def remove_amount (inv : AssetInventory) (amount : ℚ) :
    List (TaxLot × ℚ) × AssetInventory :=
  if amount ≤ 0 then ([], inv)
  else
    let r := removeLoop inv.method inv.lots amount
    (r.1,
      { inv with
        lots := r.2
        total_amount := inv.total_amount - (r.1.map (fun p => p.1.amount)).sum
        total_cost_basis := inv.total_cost_basis - (r.1.map (fun p => p.1.cost_basis)).sum })

/-- The insufficiency test of calculate.py line 74
(`self.total_amount < amount - 1e-8`): when true the code logs a warning
and falls through to consume what is available. -/
def insufficient_inventory_warning (inv : AssetInventory) (amount : ℚ) : Bool :=
  decide (inv.total_amount < amount - tol)

/-- The HIFO invariant of the spec: adjacent lots are weakly decreasing in
`unit_cost`. -/
def sortedByUnitCostDesc (lots : List TaxLot) : Prop :=
  List.Chain' (fun a b => b.unit_cost ≤ a.unit_cost) lots

/-- The invariant of §4.6 of the spec: the incrementally maintained
aggregates agree with the stored lots. -/
def aggregatesConsistent (inv : AssetInventory) : Prop :=
  inv.total_amount = (inv.lots.map TaxLot.amount).sum
    ∧ inv.total_cost_basis = (inv.lots.map TaxLot.cost_basis).sum

/-- A single operation on an inventory: `add_lot` or `remove_amount`. -/
inductive InvOp where
  | add (lot : TaxLot)
  | remove (amount : ℚ)

def applyOp (inv : AssetInventory) (op : InvOp) : AssetInventory :=
  match op with
  | .add lot => add_lot inv lot
  | .remove amount => (remove_amount inv amount).2

def applyOps (ops : List InvOp) (inv : AssetInventory) : AssetInventory :=
  ops.foldl applyOp inv

/-- One appended entry of `self.gains_losses` (the `gain_record` dicts of
`_process_disposal` and `_process_fee`).  `holding_period_days` is
`timedelta.days`, i.e. the floor of the holding period in days. -/
structure GainRecord where
  date : ℚ
  asset : String
  amount : ℚ
  proceeds : ℚ
  cost_basis : ℚ
  gain_loss : ℚ
  short_term : Bool
  holding_period_days : ℤ
  acquisition_date : ℚ
  method : Method
  transaction_id : ℕ
  note : Option String
deriving DecidableEq, Repr

/-- One appended entry of `self.income_events` (`_process_income`). -/
structure IncomeRecord where
  date : ℚ
  asset : String
  amount : ℚ
  price : ℚ
  income_amount : ℚ
  kind : String
  transaction_id : ℕ
deriving DecidableEq, Repr

/-- One normalized CSV row as `_process_transaction` reads it.  `NaN`
cells are `none`; `type` is the raw string (the code lowercases it
itself). -/
structure Row where
  timestamp : ℚ
  type : String
  base_asset : Option String
  base_amount : Option ℚ
  quote_amount : Option ℚ
  fee_amount : Option ℚ
deriving DecidableEq, Repr

/-- The price oracle `fetch_price(asset, timestamp, currency)`; the tax
currency is fixed per calculator, so it is dropped from the signature. -/
def Oracle : Type := String → ℚ → Option ℚ

/-- Python `str.lower()`: lower-case character by character.  (Defined on
the character sequence so that it evaluates inside the kernel; Lean's own
`String.toLower` is the same per-character map.) -/
def pyLower (s : String) : String := String.mk (s.data.map Char.toLower)

/-- Python truthiness of the fetched price: both `None` and `0.0` fail the
`if price:` test. -/
def truthyPrice (p : Option ℚ) : Option ℚ :=
  match p with
  | none => none
  | some q => if q = 0 then none else some q

/-- The mutable state of `TaxCalculator.__init__` (calculate.py lines
125–133): inventories keyed by asset (a Python dict, i.e. an
insertion-ordered association list) plus the two append-only event lists
and the running totals. -/
structure TaxCalculator where
  method : Method
  inventories : List (String × AssetInventory)
  gains_losses : List GainRecord
  income_events : List IncomeRecord
  total_short_term_gains : ℚ
  total_long_term_gains : ℚ
  total_income : ℚ
deriving Repr

def mkTaxCalculator (method : Method) : TaxCalculator :=
  { method := method, inventories := [], gains_losses := [], income_events := []
    total_short_term_gains := 0, total_long_term_gains := 0, total_income := 0 }

/-- `self.inventories[asset] = inv` when the key exists (the Python code
mutates the stored object in place, which leaves it at its key). -/
def setInventory (st : TaxCalculator) (asset : String) (inv : AssetInventory) : TaxCalculator :=
  { st with inventories := st.inventories.map (fun p => if p.1 = asset then (asset, inv) else p) }

/-- `if asset not in self.inventories: self.inventories[asset] =
AssetInventory(asset, self.method)` (calculate.py lines 204–205). -/
def ensureInventory (st : TaxCalculator) (asset : String) : TaxCalculator :=
  if (st.inventories.lookup asset).isSome then st
  else { st with inventories := st.inventories ++ [(asset, mkInventory asset st.method)] }

def getInventory (st : TaxCalculator) (asset : String) : AssetInventory :=
  (st.inventories.lookup asset).getD (mkInventory asset st.method)

/-- `_process_acquisition` (calculate.py lines 223–245): cost basis is
`quote_amount + fee_amount` when `quote_amount > 0`, else the fetched
price times the amount plus the fee, else just the fee; a fresh lot is
added to the asset's inventory. -/
def _process_acquisition (oracle : Oracle) (st : TaxCalculator) (row : Row)
    (inv : AssetInventory) (tid : ℕ) : TaxCalculator :=
  let amount := row.base_amount.getD 0
  let quote_amount := row.quote_amount.getD 0
  let fee_amount := row.fee_amount.getD 0
  let cost_basis :=
    if 0 < quote_amount then quote_amount + fee_amount
    else
      match truthyPrice (oracle (row.base_asset.getD "") row.timestamp) with
      | some price => price * amount + fee_amount
      | none => fee_amount
  setInventory st inv.asset (add_lot inv (mkTaxLot amount cost_basis row.timestamp tid))

/-- The `gain_record` dict built for one consumed `(lot, lot_amount)` pair
in `_process_disposal` (calculate.py lines 268–293). -/
def mkGainRecord (row : Row) (m : Method) (tid : ℕ) (proceeds amount : ℚ)
    (p : TaxLot × ℚ) : GainRecord :=
  let lot_proceeds := proceeds / amount * p.2
  let lot_cost_basis := p.1.cost_basis / p.1.amount * p.2
  { date := row.timestamp
    asset := row.base_asset.getD ""
    amount := p.2
    proceeds := lot_proceeds
    cost_basis := lot_cost_basis
    gain_loss := lot_proceeds - lot_cost_basis
    short_term := decide (row.timestamp - p.1.acquisition_date < 365)
    holding_period_days := Int.floor (row.timestamp - p.1.acquisition_date)
    acquisition_date := p.1.acquisition_date
    method := m
    transaction_id := tid
    note := none }

/-- `_process_disposal` (calculate.py lines 247–297): proceeds are
`quote_amount - fee_amount` when `quote_amount > 0`, else price-based, and
the row is skipped with a warning when no price is available; then the
sold amount is removed from inventory and one gain record is appended per
consumed (sub-)lot. -/
def _process_disposal (oracle : Oracle) (st : TaxCalculator) (row : Row)
    (inv : AssetInventory) (tid : ℕ) : TaxCalculator :=
  let amount := row.base_amount.getD 0
  let quote_amount := row.quote_amount.getD 0
  let fee_amount := row.fee_amount.getD 0
  let proceeds? :=
    if 0 < quote_amount then some (quote_amount - fee_amount)
    else
      match truthyPrice (oracle (row.base_asset.getD "") row.timestamp) with
      | some price => some (price * amount - fee_amount)
      | none => none
  match proceeds? with
  | none => st
  | some proceeds =>
    let r := remove_amount inv amount
    let st1 := setInventory st inv.asset r.2
    { st1 with gains_losses := st1.gains_losses ++ r.1.map (mkGainRecord row st.method tid proceeds amount) }

/-- `_process_income` (calculate.py lines 299–328): skipped when no price
is available; otherwise an income event is recorded and a lot with the
income value as cost basis is added. -/
def _process_income (oracle : Oracle) (st : TaxCalculator) (row : Row)
    (inv : AssetInventory) (tid : ℕ) : TaxCalculator :=
  let amount := row.base_amount.getD 0
  match truthyPrice (oracle (row.base_asset.getD "") row.timestamp) with
  | none => st
  | some price =>
    let income_value := price * amount
    let st1 := { st with income_events := st.income_events ++
      [{ date := row.timestamp, asset := row.base_asset.getD "", amount := amount,
         price := price, income_amount := income_value, kind := row.type,
         transaction_id := tid }] }
    setInventory st1 inv.asset (add_lot inv (mkTaxLot amount income_value row.timestamp tid))

/-- `_process_withdrawal` (calculate.py lines 330–337): removes from
inventory without recording a taxable event. -/
def _process_withdrawal (st : TaxCalculator) (row : Row)
    (inv : AssetInventory) : TaxCalculator :=
  let r := remove_amount inv (row.base_amount.getD 0)
  setInventory st inv.asset r.2

/-- The `gain_record` dict built for one consumed `(lot, lot_amount)` pair
in `_process_fee` (calculate.py lines 354–374): proceeds are literally
`0`, the gain is `0 - lot_cost_basis`, and the record carries the note
`"Fee transaction"`. -/
def mkFeeRecord (row : Row) (m : Method) (tid : ℕ) (p : TaxLot × ℚ) : GainRecord :=
  let lot_cost_basis := p.1.cost_basis / p.1.amount * p.2
  { date := row.timestamp
    asset := row.base_asset.getD ""
    amount := p.2
    proceeds := 0
    cost_basis := lot_cost_basis
    gain_loss := 0 - lot_cost_basis
    short_term := decide (row.timestamp - p.1.acquisition_date < 365)
    holding_period_days := Int.floor (row.timestamp - p.1.acquisition_date)
    acquisition_date := p.1.acquisition_date
    method := m
    transaction_id := tid
    note := some "Fee transaction" }

/-- `_process_fee` (calculate.py lines 339–376): the code first fetches a
price and returns with only a warning when none (or `0.0`) comes back;
otherwise it removes the fee amount from inventory and appends one
zero-proceeds gain record per consumed (sub-)lot. -/
def _process_fee (oracle : Oracle) (st : TaxCalculator) (row : Row)
    (inv : AssetInventory) (tid : ℕ) : TaxCalculator :=
  match truthyPrice (oracle (row.base_asset.getD "") row.timestamp) with
  | none => st
  | some _ =>
    let r := remove_amount inv (row.base_amount.getD 0)
    let st1 := setInventory st inv.asset r.2
    { st1 with gains_losses := st1.gains_losses ++ r.1.map (mkFeeRecord row st.method tid) }

/-- `_process_transaction` (calculate.py lines 193–221): rows with a
missing asset or zero (or missing, hence zero) amount are skipped before
anything is touched; otherwise the per-kind processor runs on the asset's
(created-if-needed) inventory, and unknown kinds are skipped with a
warning. -/
def _process_transaction (oracle : Oracle) (st : TaxCalculator) (row : Row)
    (tid : ℕ) : TaxCalculator :=
  let amount := row.base_amount.getD 0
  match row.base_asset with
  | none => st
  | some asset =>
    if amount = 0 then st
    else
      let t := pyLower row.type
      let st1 := ensureInventory st asset
      let inv := getInventory st1 asset
      if t = "buy" ∨ t = "deposit" then _process_acquisition oracle st1 row inv tid
      else if t = "sell" then _process_disposal oracle st1 row inv tid
      else if t = "stake" ∨ t = "airdrop" then _process_income oracle st1 row inv tid
      else if t = "withdraw" ∨ t = "transfer_out" then _process_withdrawal st1 row inv
      else if t = "fee" then _process_fee oracle st1 row inv tid
      else st1

/-! ### `parse_pair` (normalize.py lines 267–301)

Python strings are embedded as `List Char`; `str.strip()` is `pyStrip`,
`sep in pair` is list membership, `pair.split(sep, 1)` is `splitFirst`. -/

/-- The whitespace characters removed by Python's `str.strip()`. -/
def isPySpace (c : Char) : Bool :=
  c == ' ' || c == '\t' || c == '\n' || c == '\r' || c == '\x0b' || c == '\x0c'

/-- Python `str.strip()`: drop whitespace from both ends. -/
def pyStrip (s : List Char) : List Char :=
  ((s.dropWhile isPySpace).reverse.dropWhile isPySpace).reverse

/-- Python `s.split(sep, 1)` when `sep in s`: the part before the first
separator and the part after it. -/
def splitFirst (sep : Char) (s : List Char) : List Char × List Char :=
  (s.takeWhile (fun c => c != sep), (s.dropWhile (fun c => c != sep)).tail)

/-- The suffix loop of normalize.py lines 294–298 over
`common_quotes = ['USD', 'USDT', 'USDC', 'EUR', 'GBP', 'BTC', 'ETH']`
(in the source's order, which differs from the spec's):
`pair.endswith(quote) and len(pair) > len(quote)`. -/
def suffixSearch (p : List Char) : List (List Char) → Option (List Char) × Option (List Char)
  | [] => (some p, none)
  | q :: qs =>
    if q.isSuffixOf p && decide (q.length < p.length) then
      (some (p.take (p.length - q.length)), some q)
    else suffixSearch p qs

/-- `parse_pair` (normalize.py lines 267–301): empty input gives
`(None, None)`; the input is stripped; a leading `X` or `Z` is dropped
(Kraken prefix); the first of `/`, `-`, `_` present splits the pair (both
halves stripped); otherwise the common-quote suffixes are tried; otherwise
the whole string is the base with no quote. -/
def parse_pair (pair : List Char) : Option (List Char) × Option (List Char) :=
  if pair = [] then (none, none)
  else
    let p0 := pyStrip pair
    let p := if p0.head? = some 'X' ∨ p0.head? = some 'Z' then p0.tail else p0
    if '/' ∈ p then (some (pyStrip (splitFirst '/' p).1), some (pyStrip (splitFirst '/' p).2))
    else if '-' ∈ p then (some (pyStrip (splitFirst '-' p).1), some (pyStrip (splitFirst '-' p).2))
    else if '_' ∈ p then (some (pyStrip (splitFirst '_' p).1), some (pyStrip (splitFirst '_' p).2))
    else suffixSearch p
      ["USD".toList, "USDT".toList, "USDC".toList, "EUR".toList, "GBP".toList,
        "BTC".toList, "ETH".toList]

/-! ### The validator (`validate.py`)

Rows are embedded in their canonical typed form (amounts and timestamps
already parsed, `NaN` as `none`); `str(row['type']).lower()` of a missing
type yields the Python string `"nan"`. -/

structure VRow where
  timestamp : Option ℚ
  type : Option String
  base_asset : Option String
  base_amount : Option ℚ
  quote_amount : Option ℚ
  fee_amount : Option ℚ
deriving DecidableEq, Repr

/-- `str(row['type']).lower()`. -/
def tstr (r : VRow) : String := pyLower (r.type.getD "nan")

/-- The four-column key of `check_duplicates` (validate.py line 93). -/
def dupKey (r : VRow) : Option ℚ × Option String × Option String × Option ℚ :=
  (r.timestamp, r.type, r.base_asset, r.base_amount)

/-- `df.duplicated(subset=...).sum()`: rows equal (on the key columns) to
some earlier row. -/
def check_duplicates_go (seen : List (Option ℚ × Option String × Option String × Option ℚ)) :
    List VRow → ℕ
  | [] => 0
  | r :: rs => (if dupKey r ∈ seen then 1 else 0) + check_duplicates_go (dupKey r :: seen) rs

def check_duplicates (df : List VRow) : ℕ := check_duplicates_go [] df

/-- `check_negative_amounts` (validate.py lines 113–134). -/
def check_negative_amounts (df : List VRow) : ℕ :=
  df.countP (fun r =>
    (match r.type with
     | some t => decide (pyLower t ∈ ["buy", "deposit", "stake", "airdrop"])
     | none => false)
    && (match r.base_amount with
        | some q => decide (q < 0)
        | none => false))

/-- The key used by `sort_values('timestamp')`; `NaT` sorts last. -/
def tsLE (r s : VRow) : Bool :=
  match r.timestamp, s.timestamp with
  | some a, some b => decide (a ≤ b)
  | some _, none => true
  | none, some _ => false
  | none, none => true

def sortByTimestamp (df : List VRow) : List VRow := List.mergeSort df tsLE

/-- `df['base_asset'].dropna().unique()`: the distinct non-null assets in
first-appearance order. -/
def uniqueAssetsGo (seen : List String) : List VRow → List String
  | [] => []
  | r :: rs =>
    match r.base_asset with
    | none => uniqueAssetsGo seen rs
    | some a => if a ∈ seen then uniqueAssetsGo seen rs else a :: uniqueAssetsGo (a :: seen) rs

def uniqueAssets (df : List VRow) : List String := uniqueAssetsGo [] df

/-- One entry of the `negative_balances` list (validate.py lines 174–180). -/
structure NegativeBalanceEntry where
  asset : String
  timestamp : Option ℚ
  balance : ℚ
  transaction_type : String
  amount : ℚ
deriving DecidableEq, Repr

/-- The per-asset running-balance loop of `check_balances`
(validate.py lines 160–181). -/
def balanceScan (a : String) (bal : ℚ) : List VRow → List NegativeBalanceEntry
  | [] => []
  | r :: rs =>
    let t := tstr r
    let amt := r.base_amount.getD 0
    let bal1 :=
      if t ∈ ["buy", "deposit", "stake", "airdrop", "transfer_in"] then bal + amt
      else if t ∈ ["sell", "withdraw", "transfer_out", "fee"] then bal - amt
      else bal
    if bal1 < -(1 / 100000000) then ⟨a, r.timestamp, bal1, t, amt⟩ :: balanceScan a bal1 rs
    else balanceScan a bal1 rs

/-- `check_balances` (validate.py lines 137–183). -/
def check_balances (df : List VRow) : List NegativeBalanceEntry :=
  (uniqueAssets df).flatMap
    (fun a => balanceScan a 0 (sortByTimestamp (df.filter (fun r => r.base_asset == some a))))

/-- `datetime(2009, 1, 1)` in days since 1970-01-01. -/
def min_reasonable_date : ℚ := 14245

/-- `check_date_validity` (validate.py lines 186–223): null, before the
Bitcoin genesis year, or more than one day in the future. -/
def check_date_validity (df : List VRow) (now : ℚ) : ℕ :=
  df.countP (fun r =>
    match r.timestamp with
    | none => true
    | some d => decide (d < min_reasonable_date ∨ now + 1 < d))

/-- `check_missing_data` (validate.py lines 226–246): null counts per
critical column, listed only when positive. -/
def check_missing_data (df : List VRow) : List (String × ℕ) :=
  (if 0 < df.countP (fun r => r.timestamp.isNone)
    then [("timestamp", df.countP (fun r => r.timestamp.isNone))] else [])
  ++ (if 0 < df.countP (fun r => r.type.isNone)
    then [("type", df.countP (fun r => r.type.isNone))] else [])
  ++ (if 0 < df.countP (fun r => r.base_asset.isNone)
    then [("base_asset", df.countP (fun r => r.base_asset.isNone))] else [])
  ++ (if 0 < df.countP (fun r => r.base_amount.isNone)
    then [("base_amount", df.countP (fun r => r.base_amount.isNone))] else [])

/-- `check_data_types` (validate.py lines 249–283) counts non-numeric
values in the numeric columns; in the typed embedding those columns hold
only numbers or nulls, and `pd.to_numeric(col, errors='coerce')` coerces
nothing, so the warning list is empty. -/
def check_data_types (_df : List VRow) : List String := []

/-- The dictionary returned by `validate_df` (validate.py lines 25–79).
In the typed embedding every required column exists, so the
missing-columns early return (lines 36–41) never fires and `errors` stays
empty. -/
structure ValidationReport where
  total_transactions : ℕ
  errors : List String
  warnings : List String
  duplicates_found : ℕ
  negative_balances : List NegativeBalanceEntry
  invalid_dates : ℕ
  missing_data : List (String × ℕ)
deriving DecidableEq, Repr

/-- `validate_df` (validate.py lines 11–79). -/
def validate_df (df : List VRow) (now : ℚ) : ValidationReport :=
  let neg := check_negative_amounts df
  { total_transactions := df.length
    errors := []
    warnings :=
      (if 0 < neg
        then ["Found " ++ toString neg ++ " transactions with negative amounts in buys/deposits"]
        else [])
      ++ check_data_types df
    duplicates_found := check_duplicates df
    negative_balances := check_balances df
    invalid_dates := check_date_validity df now
    missing_data := check_missing_data df }

/-- One entry of `results['orphaned_sells']` (validate.py lines 316–320). -/
structure OrphanEntry where
  asset : String
  timestamp : Option ℚ
  type : String
deriving DecidableEq, Repr

/-- The dictionary returned by `validate_transaction_sequence`
(validate.py lines 296–300); only `orphaned_sells` is ever filled. -/
structure SequenceReport where
  sequence_errors : List String
  orphaned_sells : List OrphanEntry
  suspicious_patterns : List String
deriving DecidableEq, Repr

/-- The per-asset scan of `validate_transaction_sequence` (validate.py
lines 308–320): a `has_buy_or_deposit` flag is set by acquisition-like
rows, and sell/withdraw rows seen while it is still unset are recorded. -/
def orphanScan (a : String) : List VRow → Bool → List OrphanEntry
  | [], _ => []
  | r :: rs, hasAcq =>
    let t := tstr r
    if t ∈ ["buy", "deposit", "stake", "airdrop"] then orphanScan a rs true
    else if (t = "sell" ∨ t = "withdraw") ∧ hasAcq = false then
      ⟨a, r.timestamp, t⟩ :: orphanScan a rs hasAcq
    else orphanScan a rs hasAcq

/-- `validate_transaction_sequence` (validate.py lines 286–322).  Note:
this function is *defined* in validate.py but never invoked by
`validate_df`; nothing of its result reaches the `validate_df` report. -/
def validate_transaction_sequence (df : List VRow) : SequenceReport :=
  { sequence_errors := []
    orphaned_sells := (uniqueAssets df).flatMap
      (fun a => orphanScan a (sortByTimestamp (df.filter (fun r => r.base_asset == some a))) false)
    suspicious_patterns := [] }

/-! ### Concrete scenarios used by witnesses and counterexamples -/

/-- A single 1 BTC lot with basis 50000 acquired at day 0. -/
def lotBTC : TaxLot := mkTaxLot 1 50000 0 0

/-- A one-lot BTC inventory under the given method. -/
def invBTC (m : Method) : AssetInventory :=
  { asset := "BTC", method := m, lots := [lotBTC], total_amount := 1, total_cost_basis := 50000 }

/-- Spec §8.4 scenario 1: `Buy 1.0 BTC for 50000 USD + 25 fee`. -/
def rowBuyBTC : Row :=
  { timestamp := 0, type := "buy", base_asset := some "BTC", base_amount := some 1,
    quote_amount := some 50000, fee_amount := some 25 }

/-- Spec §8.4 scenario 1: `Sell 0.5 BTC for 30000 USD - 15 fee` at day 152. -/
def rowSellBTC : Row :=
  { timestamp := 152, type := "sell", base_asset := some "BTC", base_amount := some (1/2),
    quote_amount := some 30000, fee_amount := some 15 }

/-- The BTC inventory holding the lot produced by `rowBuyBTC`
(basis `50000 + 25`). -/
def invBTC50025 : AssetInventory :=
  { asset := "BTC", method := .fifo, lots := [mkTaxLot 1 50025 0 0],
    total_amount := 1, total_cost_basis := 50025 }

/-- A 1 ETH lot with basis 3000 acquired at day 100 (same-day scenario). -/
def invSameDay : AssetInventory :=
  { asset := "ETH", method := .fifo, lots := [mkTaxLot 1 3000 100 0],
    total_amount := 1, total_cost_basis := 3000 }

/-- A sell on the very acquisition day of `invSameDay`'s lot. -/
def rowSellSameDay : Row :=
  { timestamp := 100, type := "sell", base_asset := some "ETH", base_amount := some 1,
    quote_amount := some 3500, fee_amount := some 0 }

/-- Spec §8.4 scenario 5: inventory after `Buy 0.1 ETH` with basis 30. -/
def invETH : AssetInventory :=
  { asset := "ETH", method := .fifo, lots := [mkTaxLot (1/10) 30 0 0],
    total_amount := 1/10, total_cost_basis := 30 }

/-- Spec §8.4 scenario 5: a standalone `Fee 0.01 ETH` record. -/
def rowFeeETH : Row :=
  { timestamp := 200, type := "fee", base_asset := some "ETH", base_amount := some (1/100),
    quote_amount := none, fee_amount := none }

/-- An oracle with no prices at all (`fetch_price` returning `None`). -/
def oracleNone : Oracle := fun _ _ => none

/-- The oracle of spec §8.4 scenario 5 (`oracle = 3500`). -/
def oracle3500 : Oracle := fun _ _ => some 3500

/-- A fresh FIFO calculator. -/
def st0 : TaxCalculator := mkTaxCalculator .fifo

/-- A BTC withdraw row with no prior acquisition: an orphan sell-side row. -/
def rowOrphan : VRow :=
  { timestamp := some 20000, type := some "withdraw", base_asset := some "BTC",
    base_amount := some 0, quote_amount := none, fee_amount := none }

def dfOrphan : List VRow := [rowOrphan]

/-- A buy row with `base_amount = 0`. -/
def rowZeroAmount : Row :=
  { timestamp := 100, type := "buy", base_asset := some "BTC", base_amount := some 0,
    quote_amount := some 5, fee_amount := none }

/-! ## Supporting lemmas -/

theorem popLot_snd_length (m : Method) (l : TaxLot) (ls : List TaxLot) :
    (popLot m l ls).2.length = ls.length := by
  cases m <;> simp [popLot]

theorem removeLoop_nil (m : Method) (r : ℚ) : removeLoop m [] r = ([], []) := by
  rw [removeLoop]

theorem removeLoop_cons_done (m : Method) (l : TaxLot) (ls : List TaxLot) {r : ℚ}
    (h : r ≤ tol) : removeLoop m (l :: ls) r = ([], l :: ls) := by
  rw [removeLoop]
  simp [h]

theorem removeLoop_cons_take (m : Method) (l : TaxLot) (ls : List TaxLot) {r : ℚ}
    (h : ¬ r ≤ tol) (h2 : (popLot m l ls).1.amount ≤ r) :
    removeLoop m (l :: ls) r =
      (((popLot m l ls).1, (popLot m l ls).1.amount) ::
          (removeLoop m (popLot m l ls).2 (r - (popLot m l ls).1.amount)).1,
        (removeLoop m (popLot m l ls).2 (r - (popLot m l ls).1.amount)).2) := by
  rw [removeLoop]
  simp [h, h2]

theorem removeLoop_cons_split (m : Method) (l : TaxLot) (ls : List TaxLot) {r : ℚ}
    (h : ¬ r ≤ tol) (h2 : ¬ (popLot m l ls).1.amount ≤ r) :
    removeLoop m (l :: ls) r =
      ([(mkTaxLot r ((popLot m l ls).1.cost_basis / (popLot m l ls).1.amount * r)
            (popLot m l ls).1.acquisition_date (popLot m l ls).1.transaction_id, r)],
        pushResidual m
          { (popLot m l ls).1 with
            amount := (popLot m l ls).1.amount - r
            cost_basis := (popLot m l ls).1.cost_basis -
              (popLot m l ls).1.cost_basis / (popLot m l ls).1.amount * r }
          (popLot m l ls).2) := by
  rw [removeLoop]
  simp [h, h2]

/-! ### Structural lemmas about one loop iteration -/

theorem popLot_sum (m : Method) (l : TaxLot) (ls : List TaxLot) (f : TaxLot → ℚ) :
    f (popLot m l ls).1 + ((popLot m l ls).2.map f).sum = f l + (ls.map f).sum := by
  cases m with
  | fifo => simp [popLot]
  | hifo => simp [popLot]
  | lifo =>
    have h := List.dropLast_append_getLast (List.cons_ne_nil l ls)
    have h2 : (((l :: ls).dropLast ++ [(l :: ls).getLast (List.cons_ne_nil l ls)]).map f).sum
        = ((l :: ls).map f).sum := by rw [h]
    simp only [List.map_append, List.sum_append, List.map_cons, List.map_nil, List.sum_cons,
      List.sum_nil, add_zero] at h2
    simp only [popLot]
    linarith

theorem popLot_fst_mem (m : Method) (l : TaxLot) (ls : List TaxLot) :
    (popLot m l ls).1 ∈ l :: ls := by
  cases m with
  | fifo => simp [popLot]
  | hifo => simp [popLot]
  | lifo => exact List.getLast_mem _

theorem popLot_snd_subset (m : Method) (l : TaxLot) (ls : List TaxLot) :
    ∀ x ∈ (popLot m l ls).2, x ∈ l :: ls := by
  cases m with
  | fifo => intro x hx; exact List.mem_cons_of_mem l hx
  | hifo => intro x hx; exact List.mem_cons_of_mem l hx
  | lifo => intro x hx; exact (List.dropLast_sublist (l :: ls)).subset hx

theorem pushResidual_sum (m : Method) (res : TaxLot) (rest : List TaxLot) (f : TaxLot → ℚ) :
    ((pushResidual m res rest).map f).sum = f res + (rest.map f).sum := by
  cases m with
  | fifo => simp [pushResidual]
  | lifo => simp [pushResidual]; ring
  | hifo => simp [pushResidual]

/-! ### Conservation, shape and ordering lemmas about the removal loop -/

theorem removeLoop_sum_amount (m : Method) (lots : List TaxLot) (r : ℚ) :
    ((removeLoop m lots r).1.map (fun p => p.1.amount)).sum
      + ((removeLoop m lots r).2.map TaxLot.amount).sum
      = (lots.map TaxLot.amount).sum := by
  induction lots, r using removeLoop.induct m with
  | case1 r => simp [removeLoop_nil]
  | case2 r l ls h => simp [removeLoop_cons_done m l ls h]
  | case3 r l ls h h2 ih =>
    rw [removeLoop_cons_take m l ls h h2]
    have hp := popLot_sum m l ls TaxLot.amount
    simp only [List.map_cons, List.sum_cons]
    linarith [ih]
  | case4 r l ls h h2 =>
    rw [removeLoop_cons_split m l ls h h2]
    have hp := popLot_sum m l ls TaxLot.amount
    simp only [List.map_cons, List.sum_cons, List.map_nil, List.sum_nil, mkTaxLot,
      pushResidual_sum]
    linarith

theorem removeLoop_sum_cost (m : Method) (lots : List TaxLot) (r : ℚ) :
    ((removeLoop m lots r).1.map (fun p => p.1.cost_basis)).sum
      + ((removeLoop m lots r).2.map TaxLot.cost_basis).sum
      = (lots.map TaxLot.cost_basis).sum := by
  induction lots, r using removeLoop.induct m with
  | case1 r => simp [removeLoop_nil]
  | case2 r l ls h => simp [removeLoop_cons_done m l ls h]
  | case3 r l ls h h2 ih =>
    rw [removeLoop_cons_take m l ls h h2]
    have hp := popLot_sum m l ls TaxLot.cost_basis
    simp only [List.map_cons, List.sum_cons]
    linarith [ih]
  | case4 r l ls h h2 =>
    rw [removeLoop_cons_split m l ls h h2]
    have hp := popLot_sum m l ls TaxLot.cost_basis
    simp only [List.map_cons, List.sum_cons, List.map_nil, List.sum_nil, mkTaxLot,
      pushResidual_sum]
    linarith

/-- Every `(lot, amount_taken)` pair returned by the removal loop has
`amount_taken` equal to the returned lot's own `amount` field: a full lot
is returned as `(lot, lot.amount)` and a split returns the freshly built
sub-lot of exactly the taken size. -/
theorem removeLoop_taken_eq_amount (m : Method) (lots : List TaxLot) (r : ℚ) :
    ∀ p ∈ (removeLoop m lots r).1, p.2 = p.1.amount := by
  induction lots, r using removeLoop.induct m with
  | case1 r => simp [removeLoop_nil]
  | case2 r l ls h => simp [removeLoop_cons_done m l ls h]
  | case3 r l ls h h2 ih =>
    rw [removeLoop_cons_take m l ls h h2]
    intro p hp
    rcases List.mem_cons.mp hp with h3 | h3
    · rw [h3]
    · exact ih p h3
  | case4 r l ls h h2 =>
    rw [removeLoop_cons_split m l ls h h2]
    intro p hp
    simp only [List.mem_singleton] at hp
    rw [hp]
    simp [mkTaxLot]

theorem tol_pos : 0 < tol := by norm_num [tol]

/-- If every stored lot has positive amount, so does every consumed
(sub-)lot. -/
theorem removeLoop_removed_pos (m : Method) (lots : List TaxLot) (r : ℚ)
    (hpos : ∀ x ∈ lots, 0 < x.amount) :
    ∀ p ∈ (removeLoop m lots r).1, 0 < p.1.amount := by
  induction lots, r using removeLoop.induct m with
  | case1 r => simp [removeLoop_nil]
  | case2 r l ls h => simp [removeLoop_cons_done m l ls h]
  | case3 r l ls h h2 ih =>
    rw [removeLoop_cons_take m l ls h h2]
    intro p hp
    rcases List.mem_cons.mp hp with h3 | h3
    · rw [h3]
      exact hpos _ (popLot_fst_mem m l ls)
    · exact ih (fun x hx => hpos x (popLot_snd_subset m l ls x hx)) p h3
  | case4 r l ls h h2 =>
    rw [removeLoop_cons_split m l ls h h2]
    intro p hp
    simp only [List.mem_singleton] at hp
    rw [hp]
    simp only [mkTaxLot]
    have := tol_pos
    linarith [lt_of_not_le h]

/-- The loop performs at most one iteration per stored lot (each iteration
either consumes a lot for good or ends the loop with a split), so the
returned list of consumed pairs is no longer than the lot list. -/
theorem removeLoop_length (m : Method) (lots : List TaxLot) (r : ℚ) :
    (removeLoop m lots r).1.length ≤ lots.length := by
  induction lots, r using removeLoop.induct m with
  | case1 r => simp [removeLoop_nil]
  | case2 r l ls h => simp [removeLoop_cons_done m l ls h]
  | case3 r l ls h h2 ih =>
    rw [removeLoop_cons_take m l ls h h2]
    simp only [List.length_cons]
    have := popLot_snd_length m l ls
    omega
  | case4 r l ls h h2 =>
    rw [removeLoop_cons_split m l ls h h2]
    simp

/-- When more is requested than the whole inventory holds (by more than
the `1e-8` tolerance) and all lots are positive, the loop consumes every
lot whole: the final lot list is empty and the consumed amounts add up to
the previous total. -/
theorem removeLoop_insufficient (m : Method) (lots : List TaxLot) (r : ℚ)
    (hpos : ∀ x ∈ lots, 0 < x.amount)
    (hlt : (lots.map TaxLot.amount).sum + tol < r) :
    (removeLoop m lots r).2 = []
      ∧ ((removeLoop m lots r).1.map (fun p => p.1.amount)).sum
        = (lots.map TaxLot.amount).sum := by
  induction lots, r using removeLoop.induct m with
  | case1 r => simp [removeLoop_nil]
  | case2 r l ls h =>
    exfalso
    have hnn : 0 ≤ ((l :: ls).map TaxLot.amount).sum := by
      apply List.sum_nonneg
      intro x hx
      rcases List.mem_map.mp hx with ⟨y, hy, hxy⟩
      exact le_of_lt (hxy ▸ hpos y hy)
    linarith
  | case3 r l ls h h2 ih =>
    have hp := popLot_sum m l ls TaxLot.amount
    have hrestpos : ∀ x ∈ (popLot m l ls).2, 0 < x.amount :=
      fun x hx => hpos x (popLot_snd_subset m l ls x hx)
    have hrest : ((popLot m l ls).2.map TaxLot.amount).sum + tol
        < r - (popLot m l ls).1.amount := by
      simp only [List.map_cons, List.sum_cons] at hp hlt
      linarith
    obtain ⟨he, hs⟩ := ih hrestpos hrest
    rw [removeLoop_cons_take m l ls h h2]
    refine ⟨he, ?_⟩
    simp only [List.map_cons, List.sum_cons, hs]
    simp only [List.map_cons, List.sum_cons] at hp
    linarith
  | case4 r l ls h h2 =>
    exfalso
    have hmem : (popLot m l ls).1.amount ∈ (l :: ls).map TaxLot.amount :=
      List.mem_map_of_mem TaxLot.amount (popLot_fst_mem m l ls)
    have hnn : ∀ x ∈ (l :: ls).map TaxLot.amount, 0 ≤ x := by
      intro x hx
      rcases List.mem_map.mp hx with ⟨y, hy, hxy⟩
      exact le_of_lt (hxy ▸ hpos y hy)
    have := List.single_le_sum hnn _ hmem
    have := tol_pos
    have := lt_of_not_le h2
    linarith

/-! ### HIFO ordering -/

theorem lotLE_trans (a b c : TaxLot) : lotLE a b = true → lotLE b c = true → lotLE a c = true := by
  simp only [lotLE, decide_eq_true_eq]
  exact fun h1 h2 => le_trans h2 h1

theorem lotLE_total (a b : TaxLot) : (lotLE a b || lotLE b a) = true := by
  simp only [lotLE, Bool.or_eq_true, decide_eq_true_eq]
  exact le_total b.unit_cost a.unit_cost

/-- `lots.sort(key=lambda x: x.unit_cost, reverse=True)` leaves the list
weakly decreasing in `unit_cost` at adjacent positions. -/
theorem mergeSort_sortedByUnitCostDesc (lots : List TaxLot) :
    sortedByUnitCostDesc (List.mergeSort lots lotLE) := by
  have h := List.sorted_mergeSort lotLE_trans lotLE_total lots
  exact (h.imp (by simp [lotLE])).chain'

/-- The removal loop under HIFO keeps the lot list weakly decreasing in
`unit_cost`: a fully consumed lot just drops the head, and a split pushes
back a residual whose *stored* `unit_cost` field is untouched by the
in-place mutation of `amount` and `cost_basis`. -/
theorem removeLoop_hifo_sorted (lots : List TaxLot) (r : ℚ) :
    sortedByUnitCostDesc lots → sortedByUnitCostDesc ((removeLoop .hifo lots r).2) := by
  induction lots, r using removeLoop.induct Method.hifo with
  | case1 r => intro _; simp [removeLoop_nil, sortedByUnitCostDesc]
  | case2 r l ls h => intro hs; rwa [removeLoop_cons_done .hifo l ls h]
  | case3 r l ls h h2 ih =>
    intro hs
    rw [removeLoop_cons_take .hifo l ls h h2]
    simp only [popLot] at ih ⊢
    exact ih hs.tail
  | case4 r l ls h h2 =>
    intro hs
    rw [removeLoop_cons_split .hifo l ls h h2]
    simp only [popLot, pushResidual]
    rw [sortedByUnitCostDesc, List.chain'_cons'] at hs ⊢
    exact ⟨fun y hy => hs.1 y hy, hs.2⟩

/-! ### The aggregate invariant -/

theorem add_lot_aggregates (inv : AssetInventory) (lot : TaxLot)
    (h : aggregatesConsistent inv) : aggregatesConsistent (add_lot inv lot) := by
  obtain ⟨ha, hc⟩ := h
  constructor
  · show inv.total_amount + lot.amount = _
    cases hm : inv.method <;>
      simp [add_lot, hm, ha, ((List.mergeSort_perm (inv.lots ++ [lot]) lotLE).map _).sum_eq]
  · show inv.total_cost_basis + lot.cost_basis = _
    cases hm : inv.method <;>
      simp [add_lot, hm, hc, ((List.mergeSort_perm (inv.lots ++ [lot]) lotLE).map _).sum_eq]

theorem remove_amount_aggregates (inv : AssetInventory) (amount : ℚ)
    (h : aggregatesConsistent inv) : aggregatesConsistent ((remove_amount inv amount).2) := by
  obtain ⟨ha, hc⟩ := h
  rw [remove_amount]
  by_cases h0 : amount ≤ 0
  · simp only [if_pos h0]
    exact ⟨ha, hc⟩
  · simp only [if_neg h0]
    have hsa := removeLoop_sum_amount inv.method inv.lots amount
    have hsc := removeLoop_sum_cost inv.method inv.lots amount
    constructor
    · show inv.total_amount - _ = _
      linarith
    · show inv.total_cost_basis - _ = _
      linarith

theorem applyOps_aggregates (ops : List InvOp) (inv : AssetInventory)
    (h : aggregatesConsistent inv) : aggregatesConsistent (applyOps ops inv) := by
  induction ops generalizing inv with
  | nil => exact h
  | cons op ops ih =>
    apply ih
    cases op with
    | add lot => exact add_lot_aggregates inv lot h
    | remove amount => exact remove_amount_aggregates inv amount h

/-! ### Lemmas lifted to `remove_amount` -/

theorem remove_amount_of_nonpos (inv : AssetInventory) (amount : ℚ) (h : amount ≤ 0) :
    remove_amount inv amount = ([], inv) := by
  simp [remove_amount, h]

theorem remove_amount_fst (inv : AssetInventory) (amount : ℚ) (h : ¬ amount ≤ 0) :
    (remove_amount inv amount).1 = (removeLoop inv.method inv.lots amount).1 := by
  simp [remove_amount, h]

theorem remove_amount_snd_lots (inv : AssetInventory) (amount : ℚ) (h : ¬ amount ≤ 0) :
    (remove_amount inv amount).2.lots = (removeLoop inv.method inv.lots amount).2 := by
  simp [remove_amount, h]

theorem remove_amount_taken_eq (inv : AssetInventory) (amount : ℚ) :
    ∀ p ∈ (remove_amount inv amount).1, p.2 = p.1.amount := by
  by_cases h : amount ≤ 0
  · simp [remove_amount, h]
  · rw [remove_amount_fst inv amount h]
    exact removeLoop_taken_eq_amount inv.method inv.lots amount

theorem remove_amount_removed_pos (inv : AssetInventory) (amount : ℚ)
    (hpos : ∀ x ∈ inv.lots, 0 < x.amount) :
    ∀ p ∈ (remove_amount inv amount).1, 0 < p.1.amount := by
  by_cases h : amount ≤ 0
  · simp [remove_amount, h]
  · rw [remove_amount_fst inv amount h]
    exact removeLoop_removed_pos inv.method inv.lots amount hpos

/-- Evaluation helper: removing `2` from a one-lot inventory holding
`1` BTC consumes the whole lot and empties the inventory, under every
method. -/
theorem remove_single_lot_all (m : Method) :
    remove_amount (invBTC m) 2
      = ([(lotBTC, 1)],
          { asset := "BTC", method := m, lots := [], total_amount := 0,
            total_cost_basis := 0 }) := by
  have h1 : ¬ (2:ℚ) ≤ tol := by norm_num [tol]
  have hpop : popLot m lotBTC [] = (lotBTC, []) := by cases m <;> simp [popLot]
  have h2 : (popLot m lotBTC []).1.amount ≤ 2 := by
    rw [hpop]; norm_num [lotBTC, mkTaxLot]
  have hloop := removeLoop_cons_take m lotBTC [] h1 h2
  rw [hpop] at hloop
  have hamt : lotBTC.amount = 1 := by norm_num [lotBTC, mkTaxLot]
  rw [hamt] at hloop
  norm_num [removeLoop_nil] at hloop
  have hml : ¬ (2:ℚ) ≤ 0 := by norm_num
  simp only [remove_amount, invBTC, if_neg hml, hloop]
  norm_num [lotBTC, mkTaxLot]

/-! ## Claim theorems -/

/-- C3: for every per-asset inventory and every sequence of `add_lot` and
`remove_amount` operations (starting from a fresh inventory), the
aggregates satisfy `total_amount = Σ lots.amount` and `total_cost_basis =
Σ lots.cost_basis` — exactly, in the rational embedding, hence a fortiori
within the spec's `1e-8`; and every removal (in particular every
partial-lot split) preserves the summed amount and summed cost basis:
consumed plus retained equals the previous totals to full precision. -/
theorem inventory_aggregates_invariant :
    (∀ (asset : String) (m : Method) (ops : List InvOp),
        aggregatesConsistent (applyOps ops (mkInventory asset m)))
    ∧ (∀ (m : Method) (lots : List TaxLot) (r : ℚ),
        ((removeLoop m lots r).1.map (fun p => p.1.amount)).sum
            + ((removeLoop m lots r).2.map TaxLot.amount).sum
          = (lots.map TaxLot.amount).sum
        ∧ ((removeLoop m lots r).1.map (fun p => p.1.cost_basis)).sum
            + ((removeLoop m lots r).2.map TaxLot.cost_basis).sum
          = (lots.map TaxLot.cost_basis).sum) := by
  constructor
  · intro asset m ops
    apply applyOps_aggregates
    constructor <;> simp [mkInventory]
  · intro m lots r
    exact ⟨removeLoop_sum_amount m lots r, removeLoop_sum_cost m lots r⟩

/-- C10: `remove_amount` terminates — it is a total function here, defined
by the decreasing measure "number of stored lots", because every loop
iteration either permanently removes one lot or ends the loop by a split —
its loop runs at most `lots.length + 1` iterations (each iteration emits
exactly one consumed pair, and the count is in fact at most
`lots.length`), and a request of `amount ≤ 0` returns the empty list
immediately with the inventory unchanged. -/
theorem remove_amount_terminates :
    (∀ (inv : AssetInventory) (amount : ℚ), amount ≤ 0 →
        remove_amount inv amount = ([], inv))
    ∧ (∀ (m : Method) (lots : List TaxLot) (r : ℚ),
        (removeLoop m lots r).1.length ≤ lots.length
        ∧ (removeLoop m lots r).1.length ≤ lots.length + 1) := by
  constructor
  · exact remove_amount_of_nonpos
  · intro m lots r
    exact ⟨removeLoop_length m lots r, le_trans (removeLoop_length m lots r) (Nat.le_succ _)⟩

/-- Witness for C10 at a concrete input: removing `0` from the one-lot
BTC inventory returns `[]` and leaves it unchanged. -/
theorem remove_amount_terminates_witness :
    remove_amount (invBTC .fifo) 0 = ([], invBTC .fifo) :=
  remove_amount_terminates.1 (invBTC .fifo) 0 (by norm_num)

/-- C8: under the HIFO policy the lot list is weakly decreasing in
`unit_cost` at adjacent positions after every `add_lot`
(unconditionally: the insert re-sorts), and after every `remove_amount`
provided it was so before (removal pops the front and, on a split,
reinserts a residual whose stored `unit_cost` is unchanged). -/
theorem hifo_unit_cost_weakly_decreasing :
    ∀ (inv : AssetInventory) (lot : TaxLot) (amount : ℚ), inv.method = .hifo →
      sortedByUnitCostDesc ((add_lot inv lot).lots)
      ∧ (sortedByUnitCostDesc inv.lots →
          sortedByUnitCostDesc ((remove_amount inv amount).2.lots)) := by
  intro inv lot amount hm
  constructor
  · simp only [add_lot, hm]
    exact mergeSort_sortedByUnitCostDesc _
  · intro hs
    by_cases h0 : amount ≤ 0
    · rw [remove_amount_of_nonpos inv amount h0]
      exact hs
    · rw [remove_amount_snd_lots inv amount h0, hm]
      exact removeLoop_hifo_sorted inv.lots amount hs

/-- Witness for C8 at a concrete input: adding a pricier lot to the
one-lot HIFO BTC inventory, and removing half a coin from it, both leave
the lot list weakly decreasing in `unit_cost`. -/
theorem hifo_unit_cost_weakly_decreasing_witness :
    sortedByUnitCostDesc ((add_lot (invBTC .hifo) (mkTaxLot 1 60000 5 1)).lots)
    ∧ sortedByUnitCostDesc ((remove_amount (invBTC .hifo) (1/2)).2.lots) := by
  have h := hifo_unit_cost_weakly_decreasing (invBTC .hifo) (mkTaxLot 1 60000 5 1) (1/2) rfl
  exact ⟨h.1, h.2 (by simp [invBTC, sortedByUnitCostDesc])⟩

/-- C4 (counterexample to the claim as stated): requesting `2` BTC from a
one-lot inventory holding `1` BTC sets the insufficiency warning and
returns an ordinary partial-fill value — the whole available lot, with the
inventory emptied — identically under every accounting method `fifo`,
`lifo`, `hifo`.  The calculator's entire configuration surface
(`TaxCalculator.__init__(method, tax_currency)`) offers no strict mode:
`remove_amount`'s result type has no raising alternative, and the
`InsufficientInventoryError` class of `app/core/exceptions.py` is never
imported or raised by `calculate.py`. -/
theorem insufficient_inventory_never_raises :
    insufficient_inventory_warning (invBTC .fifo) 2 = true
    ∧ insufficient_inventory_warning (invBTC .lifo) 2 = true
    ∧ insufficient_inventory_warning (invBTC .hifo) 2 = true
    ∧ remove_amount (invBTC .fifo) 2
        = ([(lotBTC, 1)],
            { asset := "BTC", method := .fifo, lots := [], total_amount := 0,
              total_cost_basis := 0 })
    ∧ remove_amount (invBTC .lifo) 2
        = ([(lotBTC, 1)],
            { asset := "BTC", method := .lifo, lots := [], total_amount := 0,
              total_cost_basis := 0 })
    ∧ remove_amount (invBTC .hifo) 2
        = ([(lotBTC, 1)],
            { asset := "BTC", method := .hifo, lots := [], total_amount := 0,
              total_cost_basis := 0 }) := by
  refine ⟨?_, ?_, ?_, remove_single_lot_all .fifo, remove_single_lot_all .lifo,
    remove_single_lot_all .hifo⟩ <;> norm_num [insufficient_inventory_warning, invBTC, tol]

/-- C4 (amended): when a removal requests more than the asset's total
inventory beyond the `1e-8` tolerance, the engine flags the warning,
consumes exactly what is available (the lot list is emptied and the
consumed amounts sum to the old total), and continues — returning an
ordinary value, under every method alike; no strict mode exists. -/
theorem insufficient_inventory_warn_and_partial_fill :
    ∀ (inv : AssetInventory) (amount : ℚ),
      (∀ x ∈ inv.lots, 0 < x.amount) →
      inv.total_amount = (inv.lots.map TaxLot.amount).sum →
      inv.total_amount + tol < amount →
      insufficient_inventory_warning inv amount = true
      ∧ (remove_amount inv amount).2.lots = []
      ∧ (remove_amount inv amount).2.total_amount = 0
      ∧ ((remove_amount inv amount).1.map (fun p => p.1.amount)).sum = inv.total_amount := by
  intro inv amount hpos hagg hlt
  have htotnn : 0 ≤ inv.total_amount := by
    rw [hagg]
    apply List.sum_nonneg
    intro x hx
    rcases List.mem_map.mp hx with ⟨y, hy, hxy⟩
    exact le_of_lt (hxy ▸ hpos y hy)
  have h0 : ¬ amount ≤ 0 := by
    have := tol_pos
    linarith
  obtain ⟨he, hs⟩ := removeLoop_insufficient inv.method inv.lots amount hpos
    (by rw [← hagg]; exact hlt)
  refine ⟨?_, ?_, ?_, ?_⟩
  · simp only [insufficient_inventory_warning, decide_eq_true_eq]
    have := tol_pos
    linarith
  · rw [remove_amount_snd_lots inv amount h0]
    exact he
  · simp only [remove_amount, if_neg h0]
    rw [hs, hagg]
    ring
  · rw [remove_amount_fst inv amount h0, hs, hagg]

/-- Witness for the amended C4 at a concrete input: requesting `2` from
the one-lot (1 BTC) FIFO inventory warns, empties the lot list, zeroes the
total and consumes exactly the available `1`. -/
theorem insufficient_inventory_warn_and_partial_fill_witness :
    insufficient_inventory_warning (invBTC .fifo) 2 = true
    ∧ (remove_amount (invBTC .fifo) 2).2.lots = []
    ∧ (remove_amount (invBTC .fifo) 2).2.total_amount = 0
    ∧ ((remove_amount (invBTC .fifo) 2).1.map (fun p => p.1.amount)).sum
        = (invBTC .fifo).total_amount := by
  apply insufficient_inventory_warn_and_partial_fill (invBTC .fifo) 2
  · intro x hx
    simp only [invBTC, lotBTC, mkTaxLot, List.mem_singleton] at hx
    rw [hx]
    norm_num
  · norm_num [invBTC, lotBTC, mkTaxLot]
  · norm_num [invBTC, tol]

/-- C9: a record whose `base_asset` is missing, or whose `base_amount` is
missing or zero, is skipped: processing it emits no disposal or income
event and leaves the inventories, both event lists and the running totals
— the whole calculator state — unchanged. -/
theorem zero_amount_rows_skipped :
    ∀ (oracle : Oracle) (st : TaxCalculator) (row : Row) (tid : ℕ),
      row.base_asset = none ∨ row.base_amount = none ∨ row.base_amount = some 0 →
      _process_transaction oracle st row tid = st := by
  intro oracle st row tid h
  rcases h with h | h | h
  · simp [_process_transaction, h]
  · cases hba : row.base_asset <;> simp [_process_transaction, h, hba]
  · cases hba : row.base_asset <;> simp [_process_transaction, h, hba]

/-- Witness for C9 at a concrete input: a buy row of `0` BTC leaves the
fresh calculator untouched. -/
theorem zero_amount_rows_skipped_witness :
    _process_transaction oracleNone st0 rowZeroAmount 0 = st0 :=
  zero_amount_rows_skipped oracleNone st0 rowZeroAmount 0 (Or.inr (Or.inr rfl))

/-! ### Shape lemmas for the engine processors -/

theorem process_acquisition_quote_pos (oracle : Oracle) (st : TaxCalculator) (row : Row)
    (inv : AssetInventory) (tid : ℕ) (hq : 0 < row.quote_amount.getD 0) :
    _process_acquisition oracle st row inv tid
      = setInventory st inv.asset
          (add_lot inv (mkTaxLot (row.base_amount.getD 0)
            (row.quote_amount.getD 0 + row.fee_amount.getD 0) row.timestamp tid)) := by
  simp only [_process_acquisition, if_pos hq]

theorem process_disposal_quote_pos (oracle : Oracle) (st : TaxCalculator) (row : Row)
    (inv : AssetInventory) (tid : ℕ) (hq : 0 < row.quote_amount.getD 0) :
    (_process_disposal oracle st row inv tid).gains_losses
      = st.gains_losses
        ++ ((remove_amount inv (row.base_amount.getD 0)).1.map
            (mkGainRecord row st.method tid
              (row.quote_amount.getD 0 - row.fee_amount.getD 0)
              (row.base_amount.getD 0))) := by
  simp only [_process_disposal, if_pos hq, setInventory]

theorem process_disposal_gains_shape (oracle : Oracle) (st : TaxCalculator) (row : Row)
    (inv : AssetInventory) (tid : ℕ) :
    (_process_disposal oracle st row inv tid).gains_losses = st.gains_losses
    ∨ ∃ P : ℚ, (_process_disposal oracle st row inv tid).gains_losses
        = st.gains_losses
          ++ ((remove_amount inv (row.base_amount.getD 0)).1.map
              (mkGainRecord row st.method tid P (row.base_amount.getD 0))) := by
  by_cases hq : 0 < row.quote_amount.getD 0
  · exact Or.inr ⟨_, process_disposal_quote_pos oracle st row inv tid hq⟩
  · cases ho : truthyPrice (oracle (row.base_asset.getD "") row.timestamp) with
    | none => left; simp only [_process_disposal, if_neg hq, ho]
    | some pr =>
      right
      refine ⟨pr * (row.base_amount.getD 0) - row.fee_amount.getD 0, ?_⟩
      simp only [_process_disposal, if_neg hq, ho, setInventory]

theorem process_fee_some_price (oracle : Oracle) (st : TaxCalculator) (row : Row)
    (inv : AssetInventory) (tid : ℕ) (price : ℚ)
    (ho : oracle (row.base_asset.getD "") row.timestamp = some price) (hp : price ≠ 0) :
    _process_fee oracle st row inv tid
      = { setInventory st inv.asset (remove_amount inv (row.base_amount.getD 0)).2 with
          gains_losses := st.gains_losses
            ++ ((remove_amount inv (row.base_amount.getD 0)).1.map
                (mkFeeRecord row st.method tid)) } := by
  have ht : truthyPrice (oracle (row.base_asset.getD "") row.timestamp) = some price := by
    rw [ho]; simp [truthyPrice, hp]
  simp only [_process_fee, ht, setInventory]

theorem process_fee_gains_shape (oracle : Oracle) (st : TaxCalculator) (row : Row)
    (inv : AssetInventory) (tid : ℕ) :
    (_process_fee oracle st row inv tid).gains_losses = st.gains_losses
    ∨ (_process_fee oracle st row inv tid).gains_losses
        = st.gains_losses
          ++ ((remove_amount inv (row.base_amount.getD 0)).1.map
              (mkFeeRecord row st.method tid)) := by
  cases ho : truthyPrice (oracle (row.base_asset.getD "") row.timestamp) with
  | none => left; simp only [_process_fee, ho]
  | some pr => right; simp only [_process_fee, ho, setInventory]

/-- Evaluation helper: a `0.01` removal from the `0.1`-ETH lot of basis 30
is a partial split: the taken sub-lot has basis `3` and the residual keeps
`0.09` with basis `27` (stored `unit_cost` still `300`). -/
theorem remove_amount_eth_split :
    remove_amount invETH (1/100)
      = ([(mkTaxLot (1/100) 3 0 0, 1/100)],
          { asset := "ETH", method := .fifo,
            lots := [{ amount := 9/100, cost_basis := 27, acquisition_date := 0,
                       transaction_id := 0, unit_cost := 300 }],
            total_amount := 9/100, total_cost_basis := 27 }) := by
  have h1 : ¬ (1/100 : ℚ) ≤ tol := by norm_num [tol]
  have hpop : popLot .fifo (mkTaxLot (1/10) 30 0 0) [] = (mkTaxLot (1/10) 30 0 0, []) := by
    simp [popLot]
  have h2 : ¬ (popLot .fifo (mkTaxLot (1/10) 30 0 0) []).1.amount ≤ 1/100 := by
    rw [hpop]; norm_num [mkTaxLot]
  have hloop := removeLoop_cons_split .fifo (mkTaxLot (1/10) 30 0 0) [] h1 h2
  rw [hpop] at hloop
  norm_num [mkTaxLot, pushResidual] at hloop
  have hml : ¬ (1/100 : ℚ) ≤ 0 := by norm_num
  simp only [remove_amount, invETH, if_neg hml]
  norm_num [mkTaxLot]
  rw [hloop]
  norm_num

/-- Evaluation helper: selling the entire single 1 ETH lot consumes it
whole. -/
theorem remove_amount_sameday_full :
    remove_amount invSameDay 1
      = ([(mkTaxLot 1 3000 100 0, 1)],
          { asset := "ETH", method := .fifo, lots := [], total_amount := 0,
            total_cost_basis := 0 }) := by
  have h1 : ¬ (1 : ℚ) ≤ tol := by norm_num [tol]
  have hpop : popLot .fifo (mkTaxLot 1 3000 100 0) [] = (mkTaxLot 1 3000 100 0, []) := by
    simp [popLot]
  have h2 : (popLot .fifo (mkTaxLot 1 3000 100 0) []).1.amount ≤ 1 := by
    rw [hpop]; norm_num [mkTaxLot]
  have hloop := removeLoop_cons_take .fifo (mkTaxLot 1 3000 100 0) [] h1 h2
  rw [hpop] at hloop
  norm_num [mkTaxLot, removeLoop_nil] at hloop
  have hml : ¬ (1 : ℚ) ≤ 0 := by norm_num
  simp only [remove_amount, invSameDay, if_neg hml]
  norm_num [mkTaxLot]
  rw [hloop]
  norm_num

/-- C2: every disposal event emitted by a Sell (`_process_disposal`) or a
Fee (`_process_fee`) — i.e. every record newly appended to
`gains_losses` — has `short_term = true` iff the disposal timestamp minus
the consumed lot's acquisition timestamp is strictly less than 365 days
(`holding_period < timedelta(days=365)`). -/
theorem short_term_strictly_under_365_days :
    ∀ (oracle : Oracle) (st : TaxCalculator) (row : Row) (inv : AssetInventory) (tid : ℕ),
      (∀ g ∈ (_process_disposal oracle st row inv tid).gains_losses,
          g ∈ st.gains_losses ∨ (g.short_term = true ↔ g.date - g.acquisition_date < 365))
      ∧ (∀ g ∈ (_process_fee oracle st row inv tid).gains_losses,
          g ∈ st.gains_losses ∨ (g.short_term = true ↔ g.date - g.acquisition_date < 365)) := by
  intro oracle st row inv tid
  constructor
  · intro g hg
    rcases process_disposal_gains_shape oracle st row inv tid with h | ⟨P, h⟩
    · rw [h] at hg
      exact Or.inl hg
    · rw [h] at hg
      rcases List.mem_append.mp hg with h1 | h1
      · exact Or.inl h1
      · right
        rcases List.mem_map.mp h1 with ⟨p, hp, rfl⟩
        simp [mkGainRecord]
  · intro g hg
    rcases process_fee_gains_shape oracle st row inv tid with h | h
    · rw [h] at hg
      exact Or.inl hg
    · rw [h] at hg
      rcases List.mem_append.mp hg with h1 | h1
      · exact Or.inl h1
      · right
        rcases List.mem_map.mp h1 with ⟨p, hp, rfl⟩
        simp [mkFeeRecord]

/-- Witness for C2 at a concrete input: a buy at day 100 followed by a
sell at day 100 (same-day) emits a record that the theorem classifies, and
it is short-term. -/
theorem short_term_strictly_under_365_days_witness :
    mkGainRecord rowSellSameDay .fifo 0 3500 1 (mkTaxLot 1 3000 100 0, 1)
        ∈ (_process_disposal oracleNone st0 rowSellSameDay invSameDay 0).gains_losses
    ∧ ((mkGainRecord rowSellSameDay .fifo 0 3500 1 (mkTaxLot 1 3000 100 0, 1)).short_term = true
        ↔ (mkGainRecord rowSellSameDay .fifo 0 3500 1 (mkTaxLot 1 3000 100 0, 1)).date
            - (mkGainRecord rowSellSameDay .fifo 0 3500 1 (mkTaxLot 1 3000 100 0, 1)).acquisition_date
          < 365)
    ∧ (mkGainRecord rowSellSameDay .fifo 0 3500 1 (mkTaxLot 1 3000 100 0, 1)).short_term = true := by
  have hq : (0 : ℚ) < rowSellSameDay.quote_amount.getD 0 := by norm_num [rowSellSameDay]
  have hgains := process_disposal_quote_pos oracleNone st0 rowSellSameDay invSameDay 0 hq
  norm_num [rowSellSameDay, st0, mkTaxCalculator] at hgains
  rw [remove_amount_sameday_full] at hgains
  have hmem : mkGainRecord rowSellSameDay .fifo 0 3500 1 (mkTaxLot 1 3000 100 0, 1)
      ∈ (_process_disposal oracleNone st0 rowSellSameDay invSameDay 0).gains_losses := by
    simp only [st0, mkTaxCalculator, rowSellSameDay]
    rw [hgains]
    simp
  have h := (short_term_strictly_under_365_days oracleNone st0 rowSellSameDay invSameDay 0).1
    _ hmem
  refine ⟨hmem, h.resolve_left ?_, ?_⟩
  · simp [st0, mkTaxCalculator]
  · norm_num [mkGainRecord, rowSellSameDay, mkTaxLot]

/-- C1: for a Buy/Deposit with `quote_amount > 0` the added lot's cost
basis is `quote_amount + fee_amount`; for a Sell with `quote_amount > 0`
the total proceeds are `quote_amount - fee_amount`, and each emitted
record for a consumed sub-lot of size `a` has
`proceeds = (total proceeds / sold amount) * a`, `cost_basis` equal to the
sub-lot's own allocated basis, and `gain_loss = proceeds - cost_basis`.
(Positivity of the stored lots is assumed so that the per-lot
`cost_basis / amount * a` re-derivation coincides with the allocated
basis; every lot the engine itself stores is positive.) -/
theorem buy_cost_basis_and_sell_proceeds :
    ∀ (oracle : Oracle) (st : TaxCalculator) (row : Row) (inv : AssetInventory) (tid : ℕ),
      (0 < row.quote_amount.getD 0 →
        ∃ lot : TaxLot,
          lot.amount = row.base_amount.getD 0
          ∧ lot.cost_basis = row.quote_amount.getD 0 + row.fee_amount.getD 0
          ∧ _process_acquisition oracle st row inv tid
              = setInventory st inv.asset (add_lot inv lot))
      ∧ (0 < row.quote_amount.getD 0 →
          (∀ x ∈ inv.lots, 0 < x.amount) →
          (_process_disposal oracle st row inv tid).gains_losses
            = st.gains_losses
              ++ ((remove_amount inv (row.base_amount.getD 0)).1.map
                  (mkGainRecord row st.method tid
                    (row.quote_amount.getD 0 - row.fee_amount.getD 0)
                    (row.base_amount.getD 0)))
          ∧ ∀ p ∈ (remove_amount inv (row.base_amount.getD 0)).1,
              (mkGainRecord row st.method tid
                  (row.quote_amount.getD 0 - row.fee_amount.getD 0)
                  (row.base_amount.getD 0) p).proceeds
                = (row.quote_amount.getD 0 - row.fee_amount.getD 0)
                    / row.base_amount.getD 0 * p.2
              ∧ (mkGainRecord row st.method tid
                  (row.quote_amount.getD 0 - row.fee_amount.getD 0)
                  (row.base_amount.getD 0) p).cost_basis = p.1.cost_basis
              ∧ (mkGainRecord row st.method tid
                  (row.quote_amount.getD 0 - row.fee_amount.getD 0)
                  (row.base_amount.getD 0) p).gain_loss
                = (mkGainRecord row st.method tid
                    (row.quote_amount.getD 0 - row.fee_amount.getD 0)
                    (row.base_amount.getD 0) p).proceeds
                  - (mkGainRecord row st.method tid
                      (row.quote_amount.getD 0 - row.fee_amount.getD 0)
                      (row.base_amount.getD 0) p).cost_basis) := by
  intro oracle st row inv tid
  constructor
  · intro hq
    exact ⟨mkTaxLot (row.base_amount.getD 0)
        (row.quote_amount.getD 0 + row.fee_amount.getD 0) row.timestamp tid,
      by simp [mkTaxLot], by simp [mkTaxLot],
      process_acquisition_quote_pos oracle st row inv tid hq⟩
  · intro hq hpos
    refine ⟨process_disposal_quote_pos oracle st row inv tid hq, ?_⟩
    intro p hp
    have hp2 := remove_amount_taken_eq inv (row.base_amount.getD 0) p hp
    have hppos := remove_amount_removed_pos inv (row.base_amount.getD 0) hpos p hp
    refine ⟨rfl, ?_, rfl⟩
    simp only [mkGainRecord, hp2]
    field_simp

/-- Witness for C1 at the spec's scenario 1 (`Buy 1.0 BTC for 50000 + 25
fee`, then `Sell 0.5 BTC for 30000 - 15 fee`): the buy adds a lot of
basis `50025`, and for the consumed half-lot the record has
`proceeds = 29985 / 0.5 * 0.5`, the sub-lot's own basis, and their
difference as gain. -/
theorem buy_cost_basis_and_sell_proceeds_witness :
    (∃ lot : TaxLot,
        lot.amount = rowBuyBTC.base_amount.getD 0
        ∧ lot.cost_basis = rowBuyBTC.quote_amount.getD 0 + rowBuyBTC.fee_amount.getD 0
        ∧ _process_acquisition oracleNone st0 rowBuyBTC (mkInventory "BTC" .fifo) 0
            = setInventory st0 (mkInventory "BTC" .fifo).asset
                (add_lot (mkInventory "BTC" .fifo) lot))
    ∧ ((_process_disposal oracleNone st0 rowSellBTC invBTC50025 1).gains_losses
        = st0.gains_losses
          ++ ((remove_amount invBTC50025 (rowSellBTC.base_amount.getD 0)).1.map
              (mkGainRecord rowSellBTC st0.method 1
                (rowSellBTC.quote_amount.getD 0 - rowSellBTC.fee_amount.getD 0)
                (rowSellBTC.base_amount.getD 0)))
        ∧ ∀ p ∈ (remove_amount invBTC50025 (rowSellBTC.base_amount.getD 0)).1,
            (mkGainRecord rowSellBTC st0.method 1
                (rowSellBTC.quote_amount.getD 0 - rowSellBTC.fee_amount.getD 0)
                (rowSellBTC.base_amount.getD 0) p).proceeds
              = (rowSellBTC.quote_amount.getD 0 - rowSellBTC.fee_amount.getD 0)
                  / rowSellBTC.base_amount.getD 0 * p.2
            ∧ (mkGainRecord rowSellBTC st0.method 1
                (rowSellBTC.quote_amount.getD 0 - rowSellBTC.fee_amount.getD 0)
                (rowSellBTC.base_amount.getD 0) p).cost_basis = p.1.cost_basis
            ∧ (mkGainRecord rowSellBTC st0.method 1
                (rowSellBTC.quote_amount.getD 0 - rowSellBTC.fee_amount.getD 0)
                (rowSellBTC.base_amount.getD 0) p).gain_loss
              = (mkGainRecord rowSellBTC st0.method 1
                  (rowSellBTC.quote_amount.getD 0 - rowSellBTC.fee_amount.getD 0)
                  (rowSellBTC.base_amount.getD 0) p).proceeds
                - (mkGainRecord rowSellBTC st0.method 1
                    (rowSellBTC.quote_amount.getD 0 - rowSellBTC.fee_amount.getD 0)
                    (rowSellBTC.base_amount.getD 0) p).cost_basis) :=
  ⟨(buy_cost_basis_and_sell_proceeds oracleNone st0 rowBuyBTC (mkInventory "BTC" .fifo) 0).1
      (by norm_num [rowBuyBTC]),
    (buy_cost_basis_and_sell_proceeds oracleNone st0 rowSellBTC invBTC50025 1).2
      (by norm_num [rowSellBTC])
      (by
        intro x hx
        simp only [invBTC50025, mkTaxLot, List.mem_singleton] at hx
        rw [hx]
        norm_num)⟩

/-- C6 (counterexample to the claim as stated): a standalone Fee record is
*not* treated as a disposal when the price oracle has no price —
`_process_fee` fetches a price first and returns with only a warning when
it is `None`, leaving the whole state (inventory included) unchanged and
emitting nothing, even though inventory is available: consuming the fee
amount would have left `0.09` ETH instead of `0.1`. -/
theorem fee_skipped_when_no_price :
    _process_fee oracleNone st0 rowFeeETH invETH 0 = st0
    ∧ st0.gains_losses = []
    ∧ invETH.total_amount = 1/10
    ∧ (remove_amount invETH (1/100)).2.total_amount = 9/100 := by
  refine ⟨rfl, rfl, rfl, ?_⟩
  rw [remove_amount_eth_split]

/-- C6 (amended): for every standalone Fee record *for which the price
oracle returns a nonzero price*, the engine treats it as a disposal with
proceeds 0: it consumes the fee amount from the asset's inventory
(`remove_amount`) and, for each consumed sub-lot, emits a record with
`proceeds = 0`, `cost_basis` equal to the sub-lot's allocated basis, and
`gain_loss` the negated cost basis; when the oracle has no price the
record is skipped with a warning. -/
theorem fee_is_zero_proceeds_disposal :
    ∀ (oracle : Oracle) (st : TaxCalculator) (row : Row) (inv : AssetInventory) (tid : ℕ)
      (price : ℚ),
      oracle (row.base_asset.getD "") row.timestamp = some price → price ≠ 0 →
      (∀ x ∈ inv.lots, 0 < x.amount) →
      _process_fee oracle st row inv tid
        = { setInventory st inv.asset (remove_amount inv (row.base_amount.getD 0)).2 with
            gains_losses := st.gains_losses
              ++ ((remove_amount inv (row.base_amount.getD 0)).1.map
                  (mkFeeRecord row st.method tid)) }
      ∧ ∀ p ∈ (remove_amount inv (row.base_amount.getD 0)).1,
          (mkFeeRecord row st.method tid p).proceeds = 0
          ∧ (mkFeeRecord row st.method tid p).cost_basis = p.1.cost_basis
          ∧ (mkFeeRecord row st.method tid p).gain_loss
              = -((mkFeeRecord row st.method tid p).cost_basis) := by
  intro oracle st row inv tid price ho hpz hpos
  refine ⟨process_fee_some_price oracle st row inv tid price ho hpz, ?_⟩
  intro p hp
  have hp2 := remove_amount_taken_eq inv (row.base_amount.getD 0) p hp
  have hppos := remove_amount_removed_pos inv (row.base_amount.getD 0) hpos p hp
  refine ⟨rfl, ?_, ?_⟩
  · simp only [mkFeeRecord, hp2]
    field_simp
  · simp [mkFeeRecord]

/-- Witness for the amended C6 at the spec's scenario 5 (`Buy 0.1 ETH`
basis 30, then `Fee 0.01 ETH` with oracle 3500): the consumed sub-lot is
`(0.01, basis 3)` and the emitted record is exactly
`amount = 0.01, proceeds = 0, cost_basis = 3, gain_loss = -3`. -/
theorem fee_is_zero_proceeds_disposal_witness :
    (_process_fee oracle3500 st0 rowFeeETH invETH 0
        = { setInventory st0 invETH.asset
              (remove_amount invETH (rowFeeETH.base_amount.getD 0)).2 with
            gains_losses := st0.gains_losses
              ++ ((remove_amount invETH (rowFeeETH.base_amount.getD 0)).1.map
                  (mkFeeRecord rowFeeETH st0.method 0)) }
      ∧ ∀ p ∈ (remove_amount invETH (rowFeeETH.base_amount.getD 0)).1,
          (mkFeeRecord rowFeeETH st0.method 0 p).proceeds = 0
          ∧ (mkFeeRecord rowFeeETH st0.method 0 p).cost_basis = p.1.cost_basis
          ∧ (mkFeeRecord rowFeeETH st0.method 0 p).gain_loss
              = -((mkFeeRecord rowFeeETH st0.method 0 p).cost_basis))
    ∧ (remove_amount invETH (1/100)).1 = [(mkTaxLot (1/100) 3 0 0, 1/100)]
    ∧ mkFeeRecord rowFeeETH .fifo 0 (mkTaxLot (1/100) 3 0 0, 1/100)
        = { date := 200, asset := "ETH", amount := 1/100, proceeds := 0, cost_basis := 3,
            gain_loss := -3, short_term := true, holding_period_days := 200,
            acquisition_date := 0, method := .fifo, transaction_id := 0,
            note := some "Fee transaction" } := by
  refine ⟨fee_is_zero_proceeds_disposal oracle3500 st0 rowFeeETH invETH 0 3500 rfl
      (by norm_num)
      (by
        intro x hx
        simp only [invETH, mkTaxLot, List.mem_singleton] at hx
        rw [hx]
        norm_num), ?_, ?_⟩
  · rw [remove_amount_eth_split]
  · simp only [mkFeeRecord, mkTaxLot, rowFeeETH]
    norm_num

/-! ### `parse_pair` lemmas -/

theorem dropWhile_eq_self_of_not_space (s : List Char)
    (h : ∀ c ∈ s, isPySpace c = false) : s.dropWhile isPySpace = s := by
  cases s with
  | nil => rfl
  | cons c cs => simp [List.dropWhile_cons, h c (List.mem_cons_self c cs)]

theorem pyStrip_eq_self (s : List Char) (h : ∀ c ∈ s, isPySpace c = false) :
    pyStrip s = s := by
  rw [pyStrip, dropWhile_eq_self_of_not_space s h,
    dropWhile_eq_self_of_not_space s.reverse (fun c hc => h c (List.mem_reverse.mp hc)),
    List.reverse_reverse]

theorem takeWhile_append_sep (sep : Char) (base quote : List Char)
    (h : ∀ c ∈ base, c ≠ sep) :
    (base ++ sep :: quote).takeWhile (fun c => c != sep) = base := by
  induction base with
  | nil => simp [List.takeWhile_cons]
  | cons b bs ih =>
    simp only [List.cons_append, List.takeWhile_cons]
    have hb : (b != sep) = true := by
      simpa using h b (List.mem_cons_self b bs)
    rw [hb]
    simp only [if_true]
    rw [ih (fun c hc => h c (List.mem_cons_of_mem b hc))]

theorem dropWhile_append_sep (sep : Char) (base quote : List Char)
    (h : ∀ c ∈ base, c ≠ sep) :
    (base ++ sep :: quote).dropWhile (fun c => c != sep) = sep :: quote := by
  induction base with
  | nil => simp [List.dropWhile_cons]
  | cons b bs ih =>
    simp only [List.cons_append, List.dropWhile_cons]
    have hb : (b != sep) = true := by
      simpa using h b (List.mem_cons_self b bs)
    rw [hb]
    simp only [if_true]
    exact ih (fun c hc => h c (List.mem_cons_of_mem b hc))

theorem splitFirst_append (sep : Char) (base quote : List Char)
    (h : ∀ c ∈ base, c ≠ sep) :
    splitFirst sep (base ++ sep :: quote) = (base, quote) := by
  rw [splitFirst, takeWhile_append_sep sep base quote h, dropWhile_append_sep sep base quote h]
  rfl

/-- C5 (counterexample to the claim as stated): the canonical pair
`XRP/USD` does not round-trip — `parse_pair` first drops the leading `X`
(Kraken-prefix handling, normalize.py lines 283–284) and returns
`("RP", "USD")`, not `("XRP", "USD")`. -/
theorem parse_pair_kraken_prefix_breaks_roundtrip :
    parse_pair ("XRP/USD".toList) = (some ("RP".toList), some ("USD".toList))
    ∧ ("RP".toList : List Char) ≠ "XRP".toList := by
  constructor
  · rfl
  · decide

/-- C5 (amended): for every base and quote made of characters that are
neither whitespace nor one of the separators, where the base (hence the
serialized pair) does not begin with the Kraken prefix letters `X` or `Z`,
`parse_pair` applied to `base ++ sep ++ quote` returns exactly
`(base, quote)` for each canonical separator `sep ∈ {/, -, _}`. -/
theorem parse_pair_roundtrip :
    ∀ (base quote : List Char) (sep : Char),
      (sep = '/' ∨ sep = '-' ∨ sep = '_') →
      (∀ c ∈ base, isPySpace c = false ∧ c ≠ '/' ∧ c ≠ '-' ∧ c ≠ '_') →
      (∀ c ∈ quote, isPySpace c = false ∧ c ≠ '/' ∧ c ≠ '-' ∧ c ≠ '_') →
      base.head? ≠ some 'X' → base.head? ≠ some 'Z' →
      parse_pair (base ++ sep :: quote) = (some base, some quote) := by
  intro base quote sep hsep hbase hquote hX hZ
  have hne : base ++ sep :: quote ≠ [] := by simp
  have hsepspace : isPySpace sep = false := by
    rcases hsep with rfl | rfl | rfl <;> rfl
  have hsp : ∀ c ∈ base ++ sep :: quote, isPySpace c = false := by
    intro c hc
    rcases List.mem_append.mp hc with h | h
    · exact (hbase c h).1
    · rcases List.mem_cons.mp h with rfl | h
      · exact hsepspace
      · exact (hquote c h).1
  have hstrip : pyStrip (base ++ sep :: quote) = base ++ sep :: quote :=
    pyStrip_eq_self _ hsp
  have hhead : ¬ ((base ++ sep :: quote).head? = some 'X'
      ∨ (base ++ sep :: quote).head? = some 'Z') := by
    cases base with
    | nil =>
      simp only [List.nil_append, List.head?_cons]
      rcases hsep with rfl | rfl | rfl <;> decide
    | cons b bs =>
      simp only [List.cons_append, List.head?_cons]
      simp only [List.head?_cons] at hX hZ
      rintro (h | h) <;> simp_all
  rw [parse_pair, if_neg hne]
  simp only [hstrip, if_neg hhead]
  rcases hsep with rfl | rfl | rfl
  · have hmem : '/' ∈ base ++ '/' :: quote :=
      List.mem_append_right base (List.mem_cons_self _ _)
    rw [if_pos hmem,
      splitFirst_append '/' base quote (fun c hc => (hbase c hc).2.1),
      pyStrip_eq_self base (fun c hc => (hbase c hc).1),
      pyStrip_eq_self quote (fun c hc => (hquote c hc).1)]
  · have hno : ¬ '/' ∈ base ++ '-' :: quote := by
      intro hc
      rcases List.mem_append.mp hc with h | h
      · exact (hbase _ h).2.1 rfl
      · rcases List.mem_cons.mp h with h | h
        · exact absurd h (by decide)
        · exact (hquote _ h).2.1 rfl
    have hmem : '-' ∈ base ++ '-' :: quote :=
      List.mem_append_right base (List.mem_cons_self _ _)
    rw [if_neg hno, if_pos hmem,
      splitFirst_append '-' base quote (fun c hc => (hbase c hc).2.2.1),
      pyStrip_eq_self base (fun c hc => (hbase c hc).1),
      pyStrip_eq_self quote (fun c hc => (hquote c hc).1)]
  · have hno1 : ¬ '/' ∈ base ++ '_' :: quote := by
      intro hc
      rcases List.mem_append.mp hc with h | h
      · exact (hbase _ h).2.1 rfl
      · rcases List.mem_cons.mp h with h | h
        · exact absurd h (by decide)
        · exact (hquote _ h).2.1 rfl
    have hno2 : ¬ '-' ∈ base ++ '_' :: quote := by
      intro hc
      rcases List.mem_append.mp hc with h | h
      · exact (hbase _ h).2.2.1 rfl
      · rcases List.mem_cons.mp h with h | h
        · exact absurd h (by decide)
        · exact (hquote _ h).2.2.1 rfl
    have hmem : '_' ∈ base ++ '_' :: quote :=
      List.mem_append_right base (List.mem_cons_self _ _)
    rw [if_neg hno1, if_neg hno2, if_pos hmem,
      splitFirst_append '_' base quote (fun c hc => (hbase c hc).2.2.2),
      pyStrip_eq_self base (fun c hc => (hbase c hc).1),
      pyStrip_eq_self quote (fun c hc => (hquote c hc).1)]

/-- Witness for the amended C5 at a concrete input:
`parse_pair "BTC/USD" = (BTC, USD)`. -/
theorem parse_pair_roundtrip_witness :
    parse_pair ("BTC".toList ++ '/' :: "USD".toList)
      = (some ("BTC".toList), some ("USD".toList)) :=
  parse_pair_roundtrip ("BTC".toList) ("USD".toList) '/'
    (Or.inl rfl) (by decide) (by decide) (by decide) (by decide)

/-! ### Orphan-sell sequence check lemmas -/

theorem orphanScan_mem (a : String) (l : List VRow) :
    ∀ (i : ℕ) (hi : i < l.length),
      (tstr (l.get ⟨i, hi⟩) = "sell" ∨ tstr (l.get ⟨i, hi⟩) = "withdraw") →
      (∀ j (hj : j < i),
        tstr (l.get ⟨j, lt_trans hj hi⟩) ∉ (["buy", "deposit", "stake", "airdrop"] : List String)) →
      (⟨a, (l.get ⟨i, hi⟩).timestamp, tstr (l.get ⟨i, hi⟩)⟩ : OrphanEntry)
        ∈ orphanScan a l false := by
  induction l with
  | nil => intro i hi; exact absurd hi (by simp)
  | cons r rs ih =>
    intro i hi hdisp hnoacq
    cases i with
    | zero =>
      have hna : tstr r ∉ (["buy", "deposit", "stake", "airdrop"] : List String) := by
        rcases hdisp with h | h <;> rw [show tstr ((r :: rs).get ⟨0, hi⟩) = tstr r from rfl] at h <;>
          rw [h] <;> decide
      show _ ∈ orphanScan a (r :: rs) false
      simp only [orphanScan]
      rw [if_neg hna, if_pos ⟨hdisp, trivial⟩]
      exact List.mem_cons_self _ _
    | succ i2 =>
      have hi2 : i2 < rs.length := by
        simpa using Nat.lt_of_succ_lt_succ hi
      have hna : tstr r ∉ (["buy", "deposit", "stake", "airdrop"] : List String) :=
        hnoacq 0 (Nat.succ_pos i2)
      have hdisp2 : tstr (rs.get ⟨i2, hi2⟩) = "sell" ∨ tstr (rs.get ⟨i2, hi2⟩) = "withdraw" :=
        hdisp
      have hnoacq2 : ∀ j (hj : j < i2),
          tstr (rs.get ⟨j, lt_trans hj hi2⟩) ∉ (["buy", "deposit", "stake", "airdrop"] : List String) :=
        fun j hj => hnoacq (j + 1) (Nat.succ_lt_succ hj)
      have hmem := ih i2 hi2 hdisp2 hnoacq2
      show _ ∈ orphanScan a (r :: rs) false
      simp only [orphanScan]
      rw [if_neg hna]
      by_cases hsw : tstr r = "sell" ∨ tstr r = "withdraw"
      · rw [if_pos ⟨hsw, trivial⟩]
        exact List.mem_cons_of_mem _ hmem
      · rw [if_neg (fun hcc => hsw hcc.1)]
        exact hmem

/-- C7 (counterexample to the claim as stated): on a table whose only row
is a BTC `withdraw` with no prior acquisition — an orphan by the sequence
rule — `validate_df`'s report is entirely empty apart from the row count:
it lists nothing about the orphan (its only row-listing field,
`negative_balances`, is empty, and no warning or error mentions it),
because `validate_df` never invokes `validate_transaction_sequence`; the
orphan is listed only by the latter, separate function. -/
theorem validate_df_report_misses_orphan :
    validate_df dfOrphan 20500
      = { total_transactions := 1, errors := [], warnings := [], duplicates_found := 0,
          negative_balances := [], invalid_dates := 0, missing_data := [] }
    ∧ (validate_transaction_sequence dfOrphan).orphaned_sells
      = [{ asset := "BTC", timestamp := some 20000, type := "withdraw" }] := by
  have ht : tstr rowOrphan = "withdraw" := by decide
  have hsort : sortByTimestamp (dfOrphan.filter (fun r => r.base_asset == some "BTC"))
      = [rowOrphan] := by
    simp [sortByTimestamp, dfOrphan, rowOrphan, List.mergeSort_singleton]
  have huniq : uniqueAssets dfOrphan = ["BTC"] := by
    simp [uniqueAssets, uniqueAssetsGo, dfOrphan, rowOrphan]
  constructor
  · have hneg : check_negative_amounts dfOrphan = 0 := by
      norm_num [check_negative_amounts, dfOrphan, rowOrphan, List.countP_cons, List.countP_nil]
    have hdup : check_duplicates dfOrphan = 0 := by
      simp [check_duplicates, check_duplicates_go, dfOrphan]
    have hbal : check_balances dfOrphan = [] := by
      rw [check_balances, huniq]
      simp only [List.flatMap_cons, List.flatMap_nil, List.append_nil, hsort]
      rw [balanceScan]
      norm_num [ht, balanceScan, rowOrphan]
    have hdate : check_date_validity dfOrphan 20500 = 0 := by
      norm_num [check_date_validity, dfOrphan, rowOrphan, List.countP_cons, List.countP_nil,
        min_reasonable_date]
    have hmiss : check_missing_data dfOrphan = [] := by
      simp [check_missing_data, dfOrphan, rowOrphan, List.countP_cons, List.countP_nil]
    have hlen : dfOrphan.length = 1 := rfl
    simp only [validate_df, check_data_types, hneg, hdup, hbal, hdate, hmiss, hlen]
    norm_num
  · simp only [validate_transaction_sequence]
    rw [huniq]
    simp only [List.flatMap_cons, List.flatMap_nil, List.append_nil, hsort]
    have hts : rowOrphan.timestamp = some 20000 := rfl
    simp [orphanScan, ht, hts]

/-- C7 (amended): the orphan-sell sequence check lives in the separate
function `validate_transaction_sequence` (never invoked by `validate_df`):
for every asset of the table and the asset's timestamp-sorted rows, every
`sell`/`withdraw` row all of whose predecessors are not acquisitions
(`buy`/`deposit`/`stake`/`airdrop`) — i.e. every row preceding the
asset's first acquisition — is listed in its `orphaned_sells` result. -/
theorem orphan_sells_listed_by_sequence_check :
    ∀ (df : List VRow) (a : String) (l : List VRow) (i : ℕ) (hi : i < l.length),
      a ∈ uniqueAssets df →
      l = sortByTimestamp (df.filter (fun r => r.base_asset == some a)) →
      (tstr (l.get ⟨i, hi⟩) = "sell" ∨ tstr (l.get ⟨i, hi⟩) = "withdraw") →
      (∀ j (hj : j < i),
        tstr (l.get ⟨j, lt_trans hj hi⟩) ∉ (["buy", "deposit", "stake", "airdrop"] : List String)) →
      (⟨a, (l.get ⟨i, hi⟩).timestamp, tstr (l.get ⟨i, hi⟩)⟩ : OrphanEntry)
        ∈ (validate_transaction_sequence df).orphaned_sells := by
  intro df a l i hi ha hl hdisp hnoacq
  subst hl
  have hmem := orphanScan_mem a _ i hi hdisp hnoacq
  simp only [validate_transaction_sequence]
  exact List.mem_flatMap.mpr ⟨a, ha, hmem⟩

/-- Witness for the amended C7 at a concrete input: the lone orphan BTC
withdraw of `dfOrphan` is listed. -/
theorem orphan_sells_listed_by_sequence_check_witness :
    (⟨"BTC", some 20000, "withdraw"⟩ : OrphanEntry)
      ∈ (validate_transaction_sequence dfOrphan).orphaned_sells := by
  have h := orphan_sells_listed_by_sequence_check dfOrphan "BTC" [rowOrphan] 0 (by norm_num)
    (by decide)
    (by simp [sortByTimestamp, dfOrphan, rowOrphan, List.mergeSort_singleton])
    (by right; decide)
    (fun j hj => absurd hj (by omega))
  exact h
